import Mathlib

/-!
Shallow embedding of the statistical core of an interactive volcano-plot
application (app.js): the seeded linear congruential generator, the
Benjamini–Hochberg FDR computation, the significance classifier, the
FDR-cutoff scan used for the horizontal threshold line, and the
interaction-state transitions (point click, threshold sliders, search).
Real-number arithmetic of the source is modelled over ℚ; JS `Set` values
are modelled as `Finset`.
-/

/-- One state update of the generator returned by `createRng`:
`s = (s * 1664525 + 1013904223) >>> 0` (the shift forces the value
into the unsigned 32-bit range). -/
def rngStep (s : ℕ) : ℕ := (s * 1664525 + 1013904223) % 4294967296

/-- Normalized output of the generator: `s / 0xffffffff`. -/
def rngOut (s : ℕ) : ℚ := (s : ℚ) / 4294967295

/-- Calling the closure returned by `createRng` `k` times starting from
internal state `s`: the list of produced floats, with the final state. -/
def rngRun : ℕ → ℕ → List ℚ × ℕ
  | 0, s => ([], s)
  | k + 1, s =>
    let s2 := rngStep s
    let r := rngRun k s2
    (rngOut s2 :: r.1, r.2)

/-- Closed form of the generator stream: the i-th draw (0-based) from a
seed is the output of `i + 1` iterations of the state update applied to
the seed alone. -/
def rngDraws (seed k : ℕ) : List ℚ :=
  (List.range k).map fun i => rngOut (rngStep^[i + 1] seed)

/-- The `benjaminiHochberg` function of app.js: pair every p-value with
its original index, sort ascending by p-value (JS `Array.sort` with the
comparator `a.p - b.p` is a stable ascending sort, modelled by Mathlib's
stable `insertionSort`), then write `min(1, p * n / (k + 1))` back to the
original index of the rank-`k` pair (0-based `k`).  Note the source has
no backward monotonicity sweep. -/
def benjaminiHochberg (pvals : List ℚ) : List ℚ :=
  let n := pvals.length
  let indexed := List.insertionSort (fun a b : ℚ × ℕ => a.1 ≤ b.1)
    (pvals.enum.map (fun ip => (ip.2, ip.1)))
  (indexed.enum).foldl
    (fun fdr kpi => fdr.set kpi.2.2 (min 1 (kpi.2.1 * n / (kpi.1 + 1))))
    (List.replicate n 0)

/-- One observation of the synthetic dataset (the objects built by
`generateData`, after `fdr` and `negLog10P` are attached). -/
structure Obs where
  id : String
  geneSymbol : String
  log2FC : ℚ
  pval : ℚ
  fdr : ℚ
  negLog10P : ℚ
deriving DecidableEq

/-- The three color categories of `getCategory`. -/
inductive Category where
  | sig_up
  | sig_down
  | not_sig
deriving DecidableEq

/-- The `getCategory` function of app.js, with its if-chain order kept:
the `sig_up` test runs before the `sig_down` test. -/
def getCategory (d : Obs) (fcThreshold fdrThreshold : ℚ) : Category :=
  if d.fdr ≤ fdrThreshold ∧ d.log2FC ≥ fcThreshold then .sig_up
  else if d.fdr ≤ fdrThreshold ∧ d.log2FC ≤ -fcThreshold then .sig_down
  else .not_sig

/-- The zoom window stored in `state.zoomDomain`:
x and y intervals, each as (low, high). -/
structure ZoomDomain where
  x : ℚ × ℚ
  y : ℚ × ℚ
deriving DecidableEq

/-- The mutable `state` object of app.js (the fields the core reads and
writes; `pvalAtFdr` is cached by drawThresholdLines). -/
structure VolcanoState where
  data : List Obs
  fcThreshold : ℚ
  fdrThreshold : ℚ
  topN : ℕ
  showLabels : Bool
  pinned : Finset String
  selected : Finset String
  searchHighlightId : Option String
  pvalAtFdr : Option ℚ
  zoomDomain : Option ZoomDomain
deriving DecidableEq

/-- The initial `state` literal of app.js (DEFAULT_FC_THRESHOLD = 1,
DEFAULT_FDR_THRESHOLD = 0.05, DEFAULT_TOP_N = 10). -/
def state0 : VolcanoState where
  data := []
  fcThreshold := 1
  fdrThreshold := 1/20
  topN := 10
  showLabels := true
  pinned := ∅
  selected := ∅
  searchHighlightId := none
  pvalAtFdr := none
  zoomDomain := none

/-- The `updateFc` handler of bindControls, restricted to the state it
mutates: it stores the parsed slider value directly in
`state.fcThreshold`. -/
def updateFc (st : VolcanoState) (v : ℚ) : VolcanoState :=
  { st with fcThreshold := v }

/-- The `updateFdr` handler of bindControls: it stores the parsed slider
value directly in `state.fdrThreshold`. -/
def updateFdr (st : VolcanoState) (v : ℚ) : VolcanoState :=
  { st with fdrThreshold := v }

/-- The point click handler installed in `redraw`: if the selected set is
non-empty the handler returns at once; otherwise it toggles the clicked
observation's id in the pinned set. -/
def pointClick (st : VolcanoState) (d : Obs) : VolcanoState :=
  if 0 < st.selected.card then st
  else if d.id ∈ st.pinned then { st with pinned := st.pinned.erase d.id }
  else { st with pinned := insert d.id st.pinned }

/-- Model of JS `String.prototype.toLowerCase` for the ASCII ids of this
application: lower-case every character. -/
def jsToLower (s : String) : String := ⟨s.data.map Char.toLower⟩

/-- Model of JS `String.prototype.trim`: drop whitespace from both ends
of the string. -/
def jsTrim (s : String) : String :=
  ⟨((s.data.dropWhile Char.isWhitespace).reverse.dropWhile
      Char.isWhitespace).reverse⟩

/-- The `doSearch` function of bindControls: trim and lower-case the
query; an empty result only clears the search highlight; otherwise the
first observation whose lower-cased id has the query as a substring is
highlighted and zoomed to (with padding 1.2); if none matches, both the
highlight and the zoom window are cleared. -/
def doSearch (st : VolcanoState) (query : String) : VolcanoState :=
  let q := (jsToLower (jsTrim query)).data
  if q = [] then { st with searchHighlightId := none }
  else
    match st.data.find? (fun d => decide (q <:+: (jsToLower d.id).data)) with
    | some found =>
      { st with
          searchHighlightId := some found.id
          zoomDomain := some
            { x := (found.log2FC - 6/5, found.log2FC + 6/5)
              y := (max 0 (found.negLog10P - 6/5), found.negLog10P + 6/5) } }
    | none => { st with searchHighlightId := none, zoomDomain := none }

/-- The p-values of the dataset sorted ascending, as read by
`pvalueAtFdrThreshold` (which stable-sorts the observation records by
`pval` and then only accesses the `pval` field). -/
def sortedPvals (data : List Obs) : List ℚ :=
  (List.insertionSort (fun a b : Obs => a.pval ≤ b.pval) data).map (·.pval)

/-- The scan loop of `pvalueAtFdrThreshold`: at 0-based rank `k` with the
previous p-value `prev`, if `p * m / (k + 1)` exceeds the threshold the
loop returns `sorted[0]` when `k = 0` and `sorted[k-1]` (that is, `prev`)
otherwise; `none` means the loop ran off the end. -/
def fdrScan (m : ℕ) (t : ℚ) : ℕ → ℚ → List ℚ → Option ℚ
  | _, _, [] => none
  | k, prev, p :: rest =>
    if p * m / (k + 1) > t then some (if k = 0 then p else prev)
    else fdrScan m t (k + 1) p rest

/-- The `pvalueAtFdrThreshold` function of app.js: sort by p-value, scan
the raw BH ratios in rank order, and fall back to the largest p-value if
the scan never fires. -/
def pvalueAtFdrThreshold (data : List Obs) (t : ℚ) : ℚ :=
  let sorted := sortedPvals data
  let m := sorted.length
  match fdrScan m t 0 0 sorted with
  | some r => r
  | none => sorted.getLastD 0

/-- Stated from the specification's words, for comparison with
`pvalueAtFdrThreshold`: find the first rank (0-based) at which the raw
ratio `p * m / (k + 1)` exceeds the threshold; return the previous
p-value, or the smallest p-value if the very first rank already fails,
or the largest p-value if no rank ever fails. -/
def pValueAtFDRCutoffSpec (data : List Obs) (t : ℚ) : ℚ :=
  let ps := sortedPvals data
  let m := ps.length
  match (List.range m).find? (fun k => decide (ps.getD k 0 * m / ((k + 1 : ℕ) : ℚ) > t)) with
  | none => ps.getLastD 0
  | some 0 => ps.headD 0
  | some (k + 1) => ps.getD k 0

/-- A concrete observation with zero effect size and small FDR, used to
probe the classifier at the threshold boundary. -/
def obsZeroFC : Obs :=
  { id := "TP53_1", geneSymbol := "TP53", log2FC := 0
    pval := 1/100, fdr := 1/100, negLog10P := 2 }

/-- A concrete state whose selected set is non-empty (as after a box
selection). -/
def stSelected : VolcanoState := { state0 with selected := {"TP53_1"} }

/-- A concrete observation distinct from the selected id. -/
def obsOther : Obs :=
  { id := "BRCA1_2", geneSymbol := "BRCA1", log2FC := 1
    pval := 1/100, fdr := 1/100, negLog10P := 2 }

/-- A concrete two-observation dataset. -/
def dataTwo : List Obs :=
  [{ id := "A_1", geneSymbol := "A", log2FC := 1
     pval := 1/10, fdr := 1/5, negLog10P := 1 },
   { id := "B_2", geneSymbol := "B", log2FC := -1
     pval := 11/100, fdr := 11/100, negLog10P := 1 }]

/-- A concrete state holding one observation, a search highlight and a
zoom window. -/
def stZoomed : VolcanoState :=
  { state0 with
      data := [obsOther]
      searchHighlightId := some "BRCA1_2"
      zoomDomain := some { x := (0, 1), y := (0, 1) } }

/-- Claim C1: the spec states that for any input, the BH output sorted by
the corresponding input p-value ascending is non-decreasing.  The code's
`benjaminiHochberg` has no step-up monotonicity sweep, and the claim
fails: the input [0.1, 0.11] is already ascending, yet the output in
input order is [0.2, 0.11], which decreases. -/
theorem bh_not_monotone_in_pval_order :
    List.Chain' (· ≤ ·) [(1:ℚ)/10, 11/100] ∧
    benjaminiHochberg [1/10, 11/100] = [1/5, 11/100] ∧
    ¬ List.Chain' (· ≤ ·) (benjaminiHochberg [1/10, 11/100]) := by
  refine ⟨by norm_num [List.chain'_cons], ?_, ?_⟩
  · norm_num [benjaminiHochberg, List.enum, List.enumFrom, List.replicate, min_def]
  · rw [show benjaminiHochberg [1/10, 11/100] = [1/5, 11/100] by
      norm_num [benjaminiHochberg, List.enum, List.enumFrom, List.replicate, min_def]]
    norm_num [List.chain'_cons]

/-- Claim C2: the spec states that when all p-values are equal to p,
every adjusted value equals min(1, p).  On the code this fails: for the
input [0.5, 0.5] the output is [1, 0.5], and min(1, 0.5) = 0.5, so the
first output differs. -/
theorem bh_all_equal_pvals_fails :
    benjaminiHochberg [(1:ℚ)/2, 1/2] = [1, 1/2] ∧
    ¬ (∀ x ∈ benjaminiHochberg [(1:ℚ)/2, 1/2], x = min 1 ((1:ℚ)/2)) := by
  have h : benjaminiHochberg [(1:ℚ)/2, 1/2] = [1, 1/2] := by
    norm_num [benjaminiHochberg, List.enum, List.enumFrom, List.replicate, min_def]
  refine ⟨h, fun hall => ?_⟩
  have h1 := hall 1 (by rw [h]; simp)
  norm_num [min_def] at h1

/-- Claim C7: for the input p-values [0.01, 0.02, 0.03, 0.04, 0.05]
(n = 5) the BH engine returns [0.05, 0.05, 0.05, 0.05, 0.05].  The raw
ratios p_k * 5 / k all equal 0.05 here, so the missing monotonicity
sweep does not matter at this input. -/
theorem bh_n5_example :
    benjaminiHochberg [(0.01:ℚ), 0.02, 0.03, 0.04, 0.05] =
      [0.05, 0.05, 0.05, 0.05, 0.05] := by
  norm_num [benjaminiHochberg, List.enum, List.enumFrom, List.replicate, min_def]

/-- Claim C3, counterexample: the spec states that out-of-range values
passed to the threshold setters are clamped (fcThreshold to at least 0,
fdrThreshold to [0, 1]).  The code's handlers store the parsed value
without any clamping: passing -5 to updateFc leaves fcThreshold at -5,
and passing 2 to updateFdr leaves fdrThreshold at 2. -/
theorem threshold_setters_do_not_clamp :
    (updateFc state0 (-5)).fcThreshold = -5 ∧
    ¬ (0 ≤ (updateFc state0 (-5)).fcThreshold) ∧
    (updateFdr state0 2).fdrThreshold = 2 ∧
    ¬ ((updateFdr state0 2).fdrThreshold ≤ 1) := by
  refine ⟨rfl, by norm_num [updateFc], rfl, by norm_num [updateFdr]⟩

/-- Claim C3, amended: the threshold setters store the numeric input
value unchanged — no clamping is applied, so an out-of-range value is
kept as-is (while the other threshold field is untouched). -/
theorem threshold_setters_store_value (st : VolcanoState) (v : ℚ) :
    (updateFc st v).fcThreshold = v ∧
    (updateFc st v).fdrThreshold = st.fdrThreshold ∧
    (updateFdr st v).fdrThreshold = v ∧
    (updateFdr st v).fcThreshold = st.fcThreshold :=
  ⟨rfl, rfl, rfl, rfl⟩

/-- Claim C4, counterexample: the spec states that the classifier returns
SignificantDown exactly when fdr ≤ fdrThreshold and effectSize ≤
-fcThreshold, in particular at fcThreshold = 0 and effectSize = 0.  At
that point the code's sig_up branch fires first (0 ≥ 0), so the
biconditional fails: the right-hand side holds but the category is
sig_up. -/
theorem getCategory_down_iff_fails_at_zero :
    ¬ (getCategory obsZeroFC 0 (1/20) = Category.sig_down ↔
        (obsZeroFC.fdr ≤ 1/20 ∧ obsZeroFC.log2FC ≤ -(0:ℚ))) := by
  norm_num [getCategory, obsZeroFC]
  decide

/-- Claim C4, amended: the classifier returns sig_down exactly when
fdr ≤ fdrThreshold, effectSize ≤ -fcThreshold, and additionally the
sig_up test effectSize ≥ fcThreshold fails (the sig_up branch is checked
first, so it wins whenever both conditions hold, e.g. at fcThreshold = 0
and effectSize = 0). -/
theorem getCategory_down_iff (d : Obs) (fc t : ℚ) :
    getCategory d fc t = Category.sig_down ↔
      (d.fdr ≤ t ∧ d.log2FC ≤ -fc ∧ ¬ (d.log2FC ≥ fc)) := by
  unfold getCategory
  split_ifs with h1 h2 <;> simp_all

/-- Claim C6, counterexample: the spec states every generator output lies
in [0, 1), i.e. no output ever equals 1.  The code divides the 32-bit
state by 2^32 - 1 (0xffffffff), so when the state reaches 2^32 - 1 the
output is exactly 1.  From the seed 653637408 the very first draw does:
653637408 * 1664525 + 1013904223 is 4294967295 mod 2^32. -/
theorem rng_emits_one :
    (1 : ℚ) ∈ (rngRun 1 653637408).1 := by
  norm_num [rngRun, rngStep, rngOut]

/-- Claim C6, amended: every generator output lies in the closed interval
[0, 1]; the upper endpoint is attained exactly when the updated state is
2^32 - 1 (as from seed 653637408), since the state is reduced mod 2^32
and then divided by 2^32 - 1. -/
theorem rng_outputs_in_unit_interval (seed k : ℕ) (x : ℚ)
    (hx : x ∈ (rngRun k seed).1) : 0 ≤ x ∧ x ≤ 1 := by
  induction k generalizing seed with
  | zero => simp [rngRun] at hx
  | succ k ih =>
    simp only [rngRun, List.mem_cons] at hx
    rcases hx with h | h
    · subst h
      unfold rngOut
      constructor
      · positivity
      · rw [div_le_one (by norm_num)]
        have hlt : rngStep seed < 4294967296 := Nat.mod_lt _ (by norm_num)
        have : (rngStep seed : ℚ) ≤ 4294967295 := by
          exact_mod_cast Nat.le_of_lt_succ hlt
        exact this
    · exact ih (rngStep seed) h

/-- Witness for the amended C6 theorem at seed 0 and one draw. -/
theorem rng_outputs_in_unit_interval_witness :
    0 ≤ rngOut (rngStep 0) ∧ rngOut (rngStep 0) ≤ 1 :=
  rng_outputs_in_unit_interval 0 1 (rngOut (rngStep 0)) (by simp [rngRun])

/-- Claim C8: when the selected set is non-empty, a point click is a
no-op: the guard at the top of the click handler returns before touching
the pinned set, so the whole interaction state is unchanged. -/
theorem pointClick_noop_when_selected (st : VolcanoState) (d : Obs)
    (h : 0 < st.selected.card) : pointClick st d = st := by
  simp [pointClick, h]

/-- Witness for C8: a state with one selected id is left unchanged by a
click on another observation. -/
theorem pointClick_noop_when_selected_witness :
    pointClick stSelected obsOther = stSelected :=
  pointClick_noop_when_selected stSelected obsOther (by simp [stSelected])

/-- Claim C9: the generator stream is a pure function of the seed alone —
running the stateful closure k times from a seed yields exactly the
closed-form list rngDraws seed k, so any two generators created with the
same seed produce identical sequences of draws. -/
theorem rngRun_eq_rngDraws (seed k : ℕ) : (rngRun k seed).1 = rngDraws seed k := by
  induction k generalizing seed with
  | zero => simp [rngRun, rngDraws]
  | succ k ih =>
    simp only [rngRun]
    rw [ih]
    unfold rngDraws
    rw [List.range_succ_eq_map, List.map_cons, List.map_map]
    refine congrArg₂ List.cons ?_ ?_
    · simp
    · refine List.map_congr_left fun i hi => ?_
      simp only [Function.comp_apply]
      conv_rhs => rw [show Nat.succ i + 1 = (i + 1) + 1 from rfl,
        Function.iterate_succ_apply]

/-- Lower-casing preserves emptiness: the char list of the lower-cased
string is empty exactly when the string is empty. -/
theorem jsToLower_data_eq_nil (s : String) :
    (jsToLower s).data = [] ↔ s = "" := by
  show s.data.map Char.toLower = [] ↔ s = ""
  rw [List.map_eq_nil_iff]
  constructor
  · intro h
    cases s
    simp_all
  · intro h
    subst h
    rfl

/-- Claim C10: a query that is empty (or whitespace-only) after trimming
makes doSearch clear only the search highlight — the zoom window field is
untouched, because the empty-query branch returns before the match is
attempted (even though the empty string is a substring of every id);
only a non-empty trimmed query matching no id clears both the highlight
and the zoom window. -/
theorem doSearch_empty_query_keeps_zoom (st : VolcanoState) (query : String) :
    (jsTrim query = "" →
      doSearch st query = { st with searchHighlightId := none }) ∧
    (jsTrim query ≠ "" →
      (∀ d ∈ st.data,
        ¬ ((jsToLower (jsTrim query)).data <:+: (jsToLower d.id).data)) →
      (doSearch st query).searchHighlightId = none ∧
      (doSearch st query).zoomDomain = none) := by
  constructor
  · intro h
    unfold doSearch
    rw [h]
    rfl
  · intro h1 h2
    have hq : (jsToLower (jsTrim query)).data ≠ [] :=
      fun hc => h1 ((jsToLower_data_eq_nil _).mp hc)
    have hfind : st.data.find?
        (fun d => decide
          ((jsToLower (jsTrim query)).data <:+: (jsToLower d.id).data)) = none := by
      rw [List.find?_eq_none]
      intro d hd
      simpa using h2 d hd
    simp only [doSearch]
    rw [if_neg hq, hfind]
    exact ⟨rfl, rfl⟩

/-- Witness for C10: on a state with an active zoom window, a
whitespace-only query clears only the highlight, and a non-matching
query clears highlight and zoom. -/
theorem doSearch_empty_query_keeps_zoom_witness :
    doSearch stZoomed "  " = { stZoomed with searchHighlightId := none } ∧
    ((doSearch stZoomed "qqq").searchHighlightId = none ∧
     (doSearch stZoomed "qqq").zoomDomain = none) :=
  ⟨(doSearch_empty_query_keeps_zoom stZoomed "  ").1 (by decide),
   (doSearch_empty_query_keeps_zoom stZoomed "qqq").2 (by decide) (by decide)⟩

/-- Characterization of the scan loop: starting at rank k with a given
previous value, the loop answers according to the first index (relative
offset j, absolute rank k + j) whose raw ratio exceeds the threshold. -/
theorem fdrScan_eq_find (m : ℕ) (t : ℚ) :
    ∀ (l : List ℚ) (k : ℕ) (prev : ℚ),
      fdrScan m t k prev l =
        match (List.range l.length).find?
            (fun j => decide (l.getD j 0 * m / ((k + j + 1 : ℕ) : ℚ) > t)) with
        | none => none
        | some 0 => some (if k = 0 then l.getD 0 0 else prev)
        | some (j + 1) => some (l.getD j 0) := by
  intro l
  induction l with
  | nil =>
    intro k prev
    simp [fdrScan]
  | cons p rest ih =>
    intro k prev
    rw [fdrScan]
    by_cases hc : p * m / (k + 1) > t
    · rw [if_pos hc]
      have h0 : (List.range (p :: rest).length).find?
          (fun j => decide ((p :: rest).getD j 0 * m / ((k + j + 1 : ℕ) : ℚ) > t))
          = some 0 := by
        rw [List.length_cons, List.range_succ_eq_map, List.find?_cons_of_pos]
        simpa using hc
      rw [h0]
      rfl
    · rw [if_neg hc]
      have hstep : (List.range (p :: rest).length).find?
          (fun j => decide ((p :: rest).getD j 0 * m / ((k + j + 1 : ℕ) : ℚ) > t))
          = Option.map Nat.succ ((List.range rest.length).find?
              (fun j => decide (rest.getD j 0 * m / ((k + 1 + j + 1 : ℕ) : ℚ) > t))) := by
        rw [List.length_cons, List.range_succ_eq_map, List.find?_cons_of_neg]
        · rw [List.find?_map]
          have hfun : ((fun j => decide ((p :: rest).getD j 0 * m
                  / ((k + j + 1 : ℕ) : ℚ) > t)) ∘ Nat.succ)
              = fun j => decide (rest.getD j 0 * m
                  / ((k + 1 + j + 1 : ℕ) : ℚ) > t) := by
            funext j
            simp only [Function.comp_apply, Nat.succ_eq_add_one, List.getD_cons_succ]
            rw [show k + (j + 1) + 1 = k + 1 + j + 1 from by omega]
          rw [hfun]
        · simpa using hc
      rw [hstep, ih (k + 1) p]
      cases hfind : (List.range rest.length).find?
          (fun j => decide (rest.getD j 0 * m / ((k + 1 + j + 1 : ℕ) : ℚ) > t)) with
      | none => rfl
      | some j =>
        cases j with
        | zero => simp
        | succ j => simp

/-- The first entry of a list under getD is its head under headD. -/
theorem getD_zero_eq_headD (l : List ℚ) : l.getD 0 0 = l.headD 0 := by
  cases l <;> rfl

/-- Claim C5: on every non-empty dataset the code's cutoff scan agrees
with the specification's description — scanning ranks in ascending order
with the raw ratio p * n / rank, it returns the p-value just before the
first failing rank, the smallest p-value if rank 1 already fails, and
the largest p-value if no rank fails. -/
theorem pvalueAtFdr_matches_spec (data : List Obs) (t : ℚ) (h : data ≠ []) :
    pvalueAtFdrThreshold data t = pValueAtFDRCutoffSpec data t := by
  simp only [pvalueAtFdrThreshold, pValueAtFDRCutoffSpec]
  rw [fdrScan_eq_find]
  simp only [Nat.zero_add]
  cases hfind : (List.range (sortedPvals data).length).find?
      (fun j => decide ((sortedPvals data).getD j 0 * (sortedPvals data).length
        / ((j + 1 : ℕ) : ℚ) > t)) with
  | none => rfl
  | some j =>
    cases j with
    | zero => exact getD_zero_eq_headD _
    | succ j => rfl

/-- Witness for C5 on a concrete two-observation dataset. -/
theorem pvalueAtFdr_matches_spec_witness :
    dataTwo ≠ [] ∧
    pvalueAtFdrThreshold dataTwo (1/20) = pValueAtFDRCutoffSpec dataTwo (1/20) :=
  ⟨by simp [dataTwo], pvalueAtFdr_matches_spec dataTwo (1/20) (by simp [dataTwo])⟩
